import Mathlib

/-!
Verification development for a WiFi jamming / anti-jamming simulator.
The repository has three variants of the same engine:

* `jmch.py` (namespace `Jmch`): discrete strength-scaled packet blocking,
  periodic jamming detection every 10 packets with counter reset, and a
  channel-hopping reaction over channels 1..11.
* `jammer+prevention.py` (namespace `AdvSim`): continuous SNR-derived
  success rate from synthesized waveforms, a bounded (capacity 100) FIFO
  success-rate history, and user-selected mitigations (channel hopping,
  spread spectrum, adaptive filter).
* `jammer.py` (namespace `FixedJam`): probability-table packet blocking
  keyed on the jammer mode.

Random draws are modelled as explicit parameters: a uniform draw in [0,1)
becomes a rational argument `u`, `random.choice` on a list becomes a
function argument `pick : List ℕ → ℕ` applied to the candidate list, and
`np.random.randn` samples become a function argument `randn : ℕ → ℝ`.
-/

namespace Jmch

/-- Success-rate threshold from `jmch.py` (`self.success_rate_threshold = 70`). -/
def success_rate_threshold : ℚ := 70

/-- The counters-plus-channel state of `JammerWithPreventionSimulator`. -/
structure SimState where
  sent : ℕ
  blocked : ℕ
  channel : ℕ

/-- Initial state of `jmch.py`: `sent = 0`, `blocked = 0`, `channel = 1`. -/
def initState : SimState := ⟨0, 0, 1⟩

/-- Success rate as computed in `check_for_jamming`:
`100 * self.sent / total if total > 0 else 100`. -/
def successRate (sent blocked : ℕ) : ℚ :=
  if sent + blocked > 0 then 100 * sent / (sent + blocked) else 100

/-- Per-packet blocking decision of `simulate_packets`:
`is_blocked = self.jammer_active and random.random() < self.jammer_strength`,
with the uniform draw passed explicitly as `u`. -/
def is_blocked (jammer_active : Bool) (jammer_strength u : ℚ) : Bool :=
  jammer_active && decide (u < jammer_strength)

/-- The channel list of `prevention_action`: `[1, 2, ..., 11]`. -/
def available_channels : List ℕ := [1, 2, 3, 4, 5, 6, 7, 8, 9, 10, 11]

/-- Candidate channels for hopping:
`[ch for ch in available_channels if ch != self.channel]`. -/
def hopCandidates (channel : ℕ) : List ℕ :=
  available_channels.filter (fun ch => ch ≠ channel)

/-- `prevention_action`: pick a channel from the candidates, modelled with an
explicit `pick` function standing for `random.choice`. -/
def prevention_action (pick : List ℕ → ℕ) (s : SimState) : SimState :=
  { s with channel := pick (hopCandidates s.channel) }

/-- `check_for_jamming`: compute the windowed success rate, trigger
`prevention_action` iff it is strictly below the threshold, then reset both
counters. Returns the new state and whether mitigation fired. -/
def check_for_jamming (pick : List ℕ → ℕ) (s : SimState) : SimState × Bool :=
  if successRate s.sent s.blocked < success_rate_threshold then
    let s1 := prevention_action pick s
    ({ s1 with sent := 0, blocked := 0 }, true)
  else
    ({ s with sent := 0, blocked := 0 }, false)

/-- The state-mutating events of the discrete simulator: recording a sent or
blocked packet, resetting counters, and a mitigation (channel change). -/
inductive SimEvent where
  | packetSent
  | packetBlocked
  | resetCounters
  | mitigate (newChannel : ℕ)

/-- Apply one event to the state. -/
def applyEvent : SimState → SimEvent → SimState
  | s, .packetSent => { s with sent := s.sent + 1 }
  | s, .packetBlocked => { s with blocked := s.blocked + 1 }
  | s, .resetCounters => { s with sent := 0, blocked := 0 }
  | s, .mitigate c => { s with channel := c }

/-- Apply a whole event trace starting from the initial state. -/
def runEvents (evs : List SimEvent) : SimState :=
  evs.foldl applyEvent initState

end Jmch

namespace FixedJam

/-- The per-mode jammer configuration of `jammer.py` (`simulation_params`). -/
inductive JamMode where
  | noJamming
  | noise
  | repeater
  | tone
  | pulsed

/-- Block probabilities from `simulation_params`:
None 0.0, Noise 0.6, Repeater 0.4, Tone 0.7, Pulsed 0.5. -/
def block_prob : JamMode → ℚ
  | .noJamming => 0.0
  | .noise => 0.6
  | .repeater => 0.4
  | .tone => 0.7
  | .pulsed => 0.5

/-- Per-packet blocking decision of `simulate`:
`blocked = random.random() < params["block_prob"]`, with the uniform draw
passed explicitly as `u`. -/
def packetBlocked (mode : JamMode) (u : ℚ) : Bool :=
  decide (u < block_prob mode)

end FixedJam

namespace AdvSim

/-- Sampling frequency of `jammer+prevention.py` (`self.fs = 1000`); with
`duration = 1.0` the time grid has `int(fs * duration) = 1000` points. -/
def fs : ℕ := 1000

/-- Sample instants `t = np.linspace(0, self.duration, int(self.fs * self.duration))`:
1000 evenly spaced points from 0 to 1 inclusive, so `t i = i / 999`. -/
noncomputable def tGrid (i : ℕ) : ℝ := i / 999

/-- Clean signal of `_generate_signal`: `np.sin(2 * np.pi * self.fc * t)` with
the initial center frequency `self.fc = 50`. -/
noncomputable def signal (i : ℕ) : ℝ := Real.sin (2 * Real.pi * 50 * tGrid i)

/-- The jamming types offered by the Combobox: Noise, Tone, Pulsed, Sweep. -/
inductive JamType where
  | noise
  | tone
  | pulsed
  | sweep

/-- Interference waveform of `_generate_signal` per jamming type; the samples
of `np.random.randn` are passed explicitly as `randn`. Pulsed writes
`strength * 2` at every 50th index of an otherwise zero waveform. -/
noncomputable def jammerWave (ty : JamType) (strength : ℝ) (randn : ℕ → ℝ) : ℕ → ℝ :=
  match ty with
  | .noise => fun i => strength * randn i
  | .tone => fun i => strength * Real.sin (2 * Real.pi * 50 * tGrid i)
  | .pulsed => fun i => if i % 50 = 0 then strength * 2 else 0
  | .sweep => fun i => strength * Real.sin (2 * Real.pi * (50 + 30 * tGrid i) * tGrid i)

/-- Mean power `np.mean(w ** 2)` of a waveform over the 1000 samples. -/
noncomputable def meanPower (w : ℕ → ℝ) : ℝ :=
  (∑ i in Finset.range fs, w i ^ 2) / (fs : ℝ)

/-- `snr = np.mean(signal ** 2) / (np.mean(jammer ** 2) + 1e-6)`. -/
noncomputable def snr (sig jam : ℕ → ℝ) : ℝ :=
  meanPower sig / (meanPower jam + 1 / 1000000)

/-- `np.clip(x, lo, hi)`. -/
noncomputable def clip (x lo hi : ℝ) : ℝ := min (max x lo) hi

/-- `success_rate = 100 * np.clip(snr / 10, 0, 1)` from `_run_simulation`. -/
noncomputable def successRateSNR (s : ℝ) : ℝ := 100 * clip (s / 10) 0 1

/-- The `Adaptive Filter` branch of `apply_prevention`:
`self.jammer_strength *= 0.7` (no clamping in the source). -/
def adaptive_filter (strength : ℚ) : ℚ := strength * 0.7

/-- Jammer strength after `n` repeated adaptive-filter mitigations. -/
def adaptive_iter : ℕ → ℚ → ℚ
  | 0, s => s
  | n + 1, s => adaptive_iter n (adaptive_filter s)

/-- History capacity of `_run_simulation`: keep only the last 100 points. -/
def histCapacity : ℕ := 100

/-- One history update of `_run_simulation`: append the new sample; if the
length then exceeds 100, `pop(0)` the oldest entry. -/
def pushSample {α : Type} (h : List α) (x : α) : List α :=
  let h2 := h ++ [x]
  if histCapacity < h2.length then h2.tail else h2

/-- The history after pushing a whole sequence of samples onto an empty
history, in order. -/
def runHistory {α : Type} (xs : List α) : List α :=
  xs.foldl pushSample []

/-- The `Channel Hopping` branch of `apply_prevention`:
`[ch for ch in range(1, 12) if ch != self.channel]`. -/
def hopCandidates (channel : ℕ) : List ℕ :=
  (List.range' 1 11).filter (fun ch => ch ≠ channel)

end AdvSim

/-- Fuel-bounded model of the worker loops (`while self.running:` in both
`simulate_packets` of `jmch.py` and `_run_simulation` of
`jammer+prevention.py`): `r n` is the value of the stop flag read at the
`n`-th poll; each iteration polls the flag once and, when it is true,
executes exactly one tick. The result is the number of ticks executed
starting from poll index `n`. -/
def loopTicks (r : ℕ → Bool) : ℕ → ℕ → ℕ
  | 0, _ => 0
  | fuel + 1, n => if r n then loopTicks r fuel (n + 1) + 1 else 0

/-- C5: `check_for_jamming` resets both running counters to zero after every
evaluation, whether or not mitigation fired: for every choice function and
every state, the resulting `sent` and `blocked` counters are `0`. -/
theorem Jmch.check_resets_counters (pick : List ℕ → ℕ) (s : Jmch.SimState) :
    (Jmch.check_for_jamming pick s).1.sent = 0 ∧
    (Jmch.check_for_jamming pick s).1.blocked = 0 := by
  unfold Jmch.check_for_jamming
  split <;> exact ⟨rfl, rfl⟩

/-- C7: whenever the total number of packets observed since the last reset is
zero, the success rate computed by the tracker is 100; the division by
`sent + blocked` is taken only in the guarded branch where the total is
positive. -/
theorem Jmch.successRate_zero_total (sent blocked : ℕ)
    (h : sent + blocked = 0) : Jmch.successRate sent blocked = 100 := by
  unfold Jmch.successRate
  rw [if_neg]
  omega

/-- Witness for C7: with no packets observed at all, the rate is 100. -/
theorem Jmch.successRate_zero_total_witness : Jmch.successRate 0 0 = 100 :=
  Jmch.successRate_zero_total 0 0 rfl

/-- The discrete success rate lies in [0, 100] for any counter values. -/
lemma Jmch.successRate_mem (sent blocked : ℕ) :
    0 ≤ Jmch.successRate sent blocked ∧ Jmch.successRate sent blocked ≤ 100 := by
  unfold Jmch.successRate
  split
  case isTrue h =>
    have hb : (0 : ℚ) < (sent : ℚ) + blocked := by exact_mod_cast h
    constructor
    · positivity
    · rw [div_le_iff₀ hb]
      have hbn : (0 : ℚ) ≤ (blocked : ℚ) := by positivity
      nlinarith
  case isFalse h => norm_num

/-- C1: after any sequence of packet recordings, counter resets, and
mitigation actions, the success rate computed by the discrete tracker,
`100 * sent / (sent + blocked)` guarded at zero total, lies in [0, 100];
and the continuous rate `100 * clip(snr / 10, 0, 1)` lies in [0, 100]
for every SNR value. -/
theorem successRate_bounded (evs : List Jmch.SimEvent) (x : ℝ) :
    (0 ≤ Jmch.successRate (Jmch.runEvents evs).sent (Jmch.runEvents evs).blocked ∧
      Jmch.successRate (Jmch.runEvents evs).sent (Jmch.runEvents evs).blocked ≤ 100) ∧
    (0 ≤ AdvSim.successRateSNR x ∧ AdvSim.successRateSNR x ≤ 100) := by
  refine ⟨Jmch.successRate_mem _ _, ?_, ?_⟩
  · unfold AdvSim.successRateSNR AdvSim.clip
    have h1 : (0 : ℝ) ≤ min (max (x / 10) 0) 1 := le_min (le_max_right _ _) zero_le_one
    linarith
  · unfold AdvSim.successRateSNR AdvSim.clip
    have h2 : min (max (x / 10) 0) 1 ≤ 1 := min_le_right _ _
    linarith

/-- C2: for every current channel, the channel-hopping candidate list is never
empty, every candidate is one of channels 1..11 and differs from the current
channel, and both variants build the same candidate list. -/
theorem channel_hop_valid (c : ℕ) :
    AdvSim.hopCandidates c = Jmch.hopCandidates c ∧
    Jmch.hopCandidates c ≠ [] ∧
    ∀ x, x ∈ Jmch.hopCandidates c → x ∈ Jmch.available_channels ∧ x ≠ c := by
  refine ⟨?_, ?_, ?_⟩
  · have hr : List.range' 1 11 = Jmch.available_channels := rfl
    unfold AdvSim.hopCandidates Jmch.hopCandidates
    rw [hr]
  · by_cases hc : c = 1
    · subst hc
      have h2 : (2 : ℕ) ∈ Jmch.hopCandidates 1 := by decide
      exact List.ne_nil_of_mem h2
    · have h1 : (1 : ℕ) ∈ Jmch.hopCandidates c := by
        refine List.mem_filter.mpr ⟨?_, ?_⟩
        · simp [Jmch.available_channels]
        · simpa using fun h => hc h.symm
      exact List.ne_nil_of_mem h1
  · intro x hx
    have hx2 := List.mem_filter.mp hx
    exact ⟨hx2.1, by simpa using hx2.2⟩

/-- Witness for C2: from channel 1, channel 2 is a valid hopping candidate,
being one of channels 1..11 and distinct from the current channel. -/
theorem channel_hop_valid_witness :
    2 ∈ Jmch.available_channels ∧ (2 : ℕ) ≠ 1 :=
  (channel_hop_valid 1).2.2 2 (by decide)

/-- C4: `check_for_jamming` invokes the mitigation action iff the windowed
success rate is strictly below the 70% threshold; when the rate is at or
above the threshold no mitigation fires and the channel is left unchanged. -/
theorem mitigation_iff_below_threshold (pick : List ℕ → ℕ) (s : Jmch.SimState) :
    ((Jmch.check_for_jamming pick s).2 = true ↔
      Jmch.successRate s.sent s.blocked < Jmch.success_rate_threshold) ∧
    ((Jmch.check_for_jamming pick s).2 = false →
      (Jmch.check_for_jamming pick s).1.channel = s.channel) := by
  unfold Jmch.check_for_jamming
  split
  case isTrue h => exact ⟨by simpa using h, by simp⟩
  case isFalse h => exact ⟨by simpa using h, fun _ => rfl⟩

/-- Witness for C4: with 0 sent and 0 blocked the rate is 100, at or above
the threshold, so no mitigation fires and the channel stays 5. -/
theorem mitigation_iff_below_threshold_witness :
    (Jmch.check_for_jamming (fun l => l.headD 0) ⟨0, 0, 5⟩).1.channel = 5 :=
  (mitigation_iff_below_threshold (fun l => l.headD 0) ⟨0, 0, 5⟩).2 (by decide)

/-- C6: under the probability-table policy a packet is blocked iff the uniform
draw is strictly below the block probability of the current mode; under the
strength-scaled policy iff the jammer-active flag is true and the draw is
strictly below the current strength; an inactive jammer never blocks, and
mode None (block probability 0.0) never blocks a nonnegative draw. -/
theorem packet_block_decision (m : FixedJam.JamMode) (a : Bool) (strength u : ℚ) :
    (FixedJam.packetBlocked m u = true ↔ u < FixedJam.block_prob m) ∧
    (Jmch.is_blocked a strength u = true ↔ (a = true ∧ u < strength)) ∧
    Jmch.is_blocked false strength u = false ∧
    (0 ≤ u → FixedJam.packetBlocked FixedJam.JamMode.noJamming u = false) := by
  refine ⟨?_, ?_, ?_, ?_⟩
  · simp [FixedJam.packetBlocked]
  · simp [Jmch.is_blocked]
  · simp [Jmch.is_blocked]
  · intro hu
    have hnot : ¬ u < FixedJam.block_prob FixedJam.JamMode.noJamming := by
      unfold FixedJam.block_prob
      norm_num
      linarith
    simpa [FixedJam.packetBlocked] using hnot

/-- Witness for C6: a draw of 1/2 is nonnegative, and with the jammer mode
None it does not block the packet. -/
theorem packet_block_decision_witness :
    FixedJam.packetBlocked FixedJam.JamMode.noJamming (1 / 2) = false :=
  (packet_block_decision FixedJam.JamMode.noJamming false (1 / 2) (1 / 2)).2.2.2
    (by norm_num)

/-- If every poll from index `T` on reads false, at most `T - n` ticks run
from poll index `n` on. -/
lemma loopTicks_le_of_stop (r : ℕ → Bool) (T : ℕ)
    (hstop : ∀ m, T ≤ m → r m = false) :
    ∀ fuel n, loopTicks r fuel n ≤ T - n := by
  intro fuel
  induction fuel with
  | zero => intro n; simp [loopTicks]
  | succ k ih =>
      intro n
      simp only [loopTicks]
      split
      case isTrue h =>
        have hn : n < T := by
          by_contra hcon
          push_neg at hcon
          rw [hstop n hcon] at h
          exact Bool.false_ne_true h
        have hih := ih (n + 1)
        omega
      case isFalse h => exact Nat.zero_le _

/-- C9: the worker polls the stop flag once per tick; once the flag is
observed false no new tick begins, so if the stop is requested during tick
`s` (every poll with index above `s` reads false), the loop executes at most
`s + 1` ticks in total: at most one tick at or after the stop request. -/
theorem stop_flag_bounds_ticks (r : ℕ → Bool) (s fuel : ℕ)
    (hstop : ∀ m, s < m → r m = false) :
    loopTicks r fuel 0 ≤ s + 1 := by
  have h := loopTicks_le_of_stop r (s + 1) (fun m hm => hstop m (by omega)) fuel 0
  simpa using h

/-- Witness for C9: with the stop flag already false at every poll, no tick
at all executes, and in particular the bound of one further tick holds. -/
theorem stop_flag_bounds_ticks_witness :
    loopTicks (fun _ => false) 5 0 ≤ 0 + 1 :=
  stop_flag_bounds_ticks (fun _ => false) 0 5 (fun _ _ => rfl)

/-- Closed form of the iterated adaptive filter: `n` decays multiply the
strength by `(7/10) ^ n`. -/
lemma AdvSim.adaptive_iter_eq (n : ℕ) :
    ∀ s, AdvSim.adaptive_iter n s = s * (7 / 10) ^ n := by
  induction n with
  | zero => intro s; simp [AdvSim.adaptive_iter]
  | succ k ih =>
      intro s
      simp only [AdvSim.adaptive_iter, AdvSim.adaptive_filter]
      rw [ih]
      have h7 : (0.7 : ℚ) = 7 / 10 := by norm_num
      rw [h7]
      ring

/-- Counterexample to C3 as stated: starting from strength 5.0 (within the
variant's configured range [0, 10]), twelve adaptive-filter mitigations
leave the strength strictly below 0.1 — the source applies
`self.jammer_strength *= 0.7` with no lower clamp, so the strength is not
bounded below by 0.1. -/
theorem adaptive_decay_below_floor : AdvSim.adaptive_iter 12 5 < 0.1 := by
  rw [AdvSim.adaptive_iter_eq]
  norm_num

/-- C3 (amended): each adaptive-filter mitigation multiplies the strength by
0.7 (no clamping occurs in the source, and none is needed to stay in range):
from any strength in the configured range [0, 10], repeated mitigations are
monotonically non-increasing and the strength remains within [0, 10], in
particular never below the configured lower bound 0 — though it eventually
falls below 0.1. -/
theorem adaptive_decay_monotone (n : ℕ) (s : ℚ) (h0 : 0 ≤ s) (h10 : s ≤ 10) :
    AdvSim.adaptive_iter (n + 1) s ≤ AdvSim.adaptive_iter n s ∧
    0 ≤ AdvSim.adaptive_iter n s ∧ AdvSim.adaptive_iter n s ≤ 10 := by
  rw [AdvSim.adaptive_iter_eq, AdvSim.adaptive_iter_eq]
  refine ⟨?_, ?_, ?_⟩
  · have hp : ((7 : ℚ) / 10) ^ (n + 1) ≤ (7 / 10) ^ n :=
      pow_le_pow_of_le_one (by norm_num) (by norm_num) (by omega)
    exact mul_le_mul_of_nonneg_left hp h0
  · positivity
  · have hp : ((7 : ℚ) / 10) ^ n ≤ 1 := pow_le_one₀ (by norm_num) (by norm_num)
    calc s * (7 / 10) ^ n ≤ s * 1 := mul_le_mul_of_nonneg_left hp h0
    _ = s := mul_one s
    _ ≤ 10 := h10

/-- Witness for C3 (amended): from strength 5, a fourth mitigation does not
increase the strength, and after three mitigations the strength is still
within [0, 10]. -/
theorem adaptive_decay_monotone_witness :
    AdvSim.adaptive_iter (3 + 1) 5 ≤ AdvSim.adaptive_iter 3 5 ∧
    0 ≤ AdvSim.adaptive_iter 3 5 ∧ AdvSim.adaptive_iter 3 5 ≤ 10 :=
  adaptive_decay_monotone 3 5 (by norm_num) (by norm_num)

/-- Pushing a sample commutes with running the history on a longer input. -/
lemma AdvSim.runHistory_append {α : Type} (xs : List α) (x : α) :
    AdvSim.runHistory (xs ++ [x]) = AdvSim.pushSample (AdvSim.runHistory xs) x := by
  unfold AdvSim.runHistory
  rw [List.foldl_append]
  rfl

/-- The history built from a sample sequence is exactly the sequence with all
but its last 100 elements dropped. -/
lemma AdvSim.runHistory_eq {α : Type} (xs : List α) :
    AdvSim.runHistory xs = xs.drop (xs.length - AdvSim.histCapacity) := by
  induction xs using List.reverseRecOn with
  | nil => rfl
  | append_singleton ys y ih =>
      rw [AdvSim.runHistory_append, ih]
      unfold AdvSim.pushSample AdvSim.histCapacity
      by_cases hlen : ys.length < 100
      · have hd : ys.length - 100 = 0 := by omega
        simp only [AdvSim.histCapacity, hd, List.drop_zero]
        rw [if_neg]
        · have hd2 : (ys ++ [y]).length - 100 = 0 := by
            simp only [List.length_append, List.length_singleton]
            omega
          rw [hd2, List.drop_zero]
        · simp only [List.length_append, List.length_singleton]
          omega
      · push_neg at hlen
        have hdl : (ys.drop (ys.length - 100)).length = 100 := by
          rw [List.length_drop]
          omega
        rw [if_pos]
        · rw [← List.drop_one, List.drop_append_eq_append_drop, hdl]
          have h10 : 1 - 100 = 0 := by omega
          rw [h10, List.drop_zero, List.drop_drop]
          rw [List.drop_append_eq_append_drop]
          have hd3 : (ys ++ [y]).length - 100 = 1 + (ys.length - 100) := by
            simp only [List.length_append, List.length_singleton]
            omega
          have hd4 : (ys ++ [y]).length - 100 - ys.length = 0 := by
            simp only [List.length_append, List.length_singleton]
            omega
          rw [hd3] at hd4 ⊢
          rw [hd4, List.drop_zero]
          have hcomm : ys.length - 100 + 1 = 1 + (ys.length - 100) := by omega
          rw [hcomm]
        · simp only [AdvSim.histCapacity, List.length_append, hdl, List.length_singleton]
          omega

/-- C8: the success-rate history is a bounded FIFO buffer: pushing any sample
sequence onto an empty history retains exactly the most recent samples in
insertion order (all but the last 100 are dropped), and the history length
never exceeds the capacity 100. -/
theorem history_bounded_fifo {α : Type} (xs : List α) :
    AdvSim.runHistory xs = xs.drop (xs.length - AdvSim.histCapacity) ∧
    (AdvSim.runHistory xs).length ≤ AdvSim.histCapacity := by
  refine ⟨AdvSim.runHistory_eq xs, ?_⟩
  rw [AdvSim.runHistory_eq xs, List.length_drop]
  simp only [AdvSim.histCapacity]
  omega

/-- The fifth sample of the clean signal is at least 1/2: its phase
`2π · 50 · (5/999) = 500π/999` lies between π/6 and 5π/6. -/
lemma AdvSim.signal_five_ge : (1 : ℝ) / 2 ≤ AdvSim.signal 5 := by
  have hpi := Real.pi_pos
  have harg : 2 * Real.pi * 50 * AdvSim.tGrid 5 = Real.pi - 499 * Real.pi / 999 := by
    unfold AdvSim.tGrid
    push_cast
    ring
  unfold AdvSim.signal
  rw [harg, Real.sin_pi_sub]
  have h1 : Real.pi / 6 ≤ 499 * Real.pi / 999 := by linarith
  have hmem1 : Real.pi / 6 ∈ Set.Icc (-(Real.pi / 2)) (Real.pi / 2) :=
    ⟨by linarith, by linarith⟩
  have hmem2 : 499 * Real.pi / 999 ∈ Set.Icc (-(Real.pi / 2)) (Real.pi / 2) :=
    ⟨by linarith, by linarith⟩
  calc (1 : ℝ) / 2 = Real.sin (Real.pi / 6) := Real.sin_pi_div_six.symm
    _ ≤ Real.sin (499 * Real.pi / 999) :=
        Real.strictMonoOn_sin.monotoneOn hmem1 hmem2 h1

/-- The clean signal's mean power over the 1000 samples is at least 1/4000. -/
lemma AdvSim.meanPower_signal_ge :
    (1 : ℝ) / 4000 ≤ AdvSim.meanPower AdvSim.signal := by
  have hterm : (1 : ℝ) / 4 ≤ AdvSim.signal 5 ^ 2 := by
    nlinarith [AdvSim.signal_five_ge]
  have hsum : AdvSim.signal 5 ^ 2 ≤ ∑ i in Finset.range AdvSim.fs, AdvSim.signal i ^ 2 := by
    refine Finset.single_le_sum (f := fun i => AdvSim.signal i ^ 2) ?_ ?_
    · intro i _
      positivity
    · simp [AdvSim.fs]
  unfold AdvSim.meanPower
  have hfs : ((AdvSim.fs : ℕ) : ℝ) = 1000 := by norm_num [AdvSim.fs]
  rw [hfs]
  linarith

/-- C10: with jammer strength 0, every jamming type (Noise, Tone, Pulsed,
Sweep) generates the identically zero interference waveform, and the
SNR-derived success rate of that tick is exactly 100: the clean signal's mean
power divided by the epsilon denominator exceeds 10, so the clipped ratio
is 1. -/
theorem zero_strength_full_success (ty : AdvSim.JamType) (randn : ℕ → ℝ) :
    (∀ i, AdvSim.jammerWave ty 0 randn i = 0) ∧
    AdvSim.successRateSNR
      (AdvSim.snr AdvSim.signal (AdvSim.jammerWave ty 0 randn)) = 100 := by
  have hzero : ∀ i, AdvSim.jammerWave ty 0 randn i = 0 := by
    intro i
    cases ty <;> simp [AdvSim.jammerWave]
  refine ⟨hzero, ?_⟩
  have hjam : AdvSim.meanPower (AdvSim.jammerWave ty 0 randn) = 0 := by
    unfold AdvSim.meanPower
    have hterms : ∀ i ∈ Finset.range AdvSim.fs,
        AdvSim.jammerWave ty 0 randn i ^ 2 = 0 :=
      fun i _ => by rw [hzero i]; ring
    rw [Finset.sum_congr rfl hterms]
    simp
  have hsnr : (10 : ℝ) ≤ AdvSim.snr AdvSim.signal (AdvSim.jammerWave ty 0 randn) := by
    unfold AdvSim.snr
    rw [hjam, zero_add]
    rw [le_div_iff₀ (by norm_num : (0 : ℝ) < 1 / 1000000)]
    have hm := AdvSim.meanPower_signal_ge
    linarith
  set x := AdvSim.snr AdvSim.signal (AdvSim.jammerWave ty 0 randn) with hx
  unfold AdvSim.successRateSNR AdvSim.clip
  rw [max_eq_left (by linarith : (0 : ℝ) ≤ x / 10)]
  rw [min_eq_right (by linarith : (1 : ℝ) ≤ x / 10)]
  norm_num
